import Mathlib

/-!
Verification development for the `fastroute` HTTP request router
(`router.go`).  The Go source is shallowly embedded: strings are
`List Char`, the request's `Body` slot is an explicit `BodyVal`, the
per-route `sync.Pool` of `*parameters` carriers is a deterministic
free list over an explicit heap, and Go panics in fallible code are
`Option`/`Except` failures.  The default path comparison function
(`caseSensitiveCompare`, i.e. `==`) is used throughout; the
`ComparesPathWith` override is out of scope for the claims below.
-/

namespace Fastroute

/-- A value held in a request's `Body` slot: Go `nil`, a host body
stream (identified by a number), or an installed `*parameters`
carrier (identified by its heap id). -/
inductive BodyVal where
  | null : BodyVal
  | stream (n : Nat) : BodyVal
  | carrier (id : Nat) : BodyVal
deriving DecidableEq

/-- `Params` from router.go: an ordered slice of key/value pairs. -/
abbrev Params := List (List Char × List Char)

/-- The marker characters `:` and `*` (`strings.IndexAny(s, ":*")`). -/
def isMarker (c : Char) : Bool := c = ':' || c = '*'

/-- `"/" + strings.TrimLeft(path, "/")` from `Route` (router.go line 219):
drop every leading slash, then put exactly one back. -/
def normalize (path : List Char) : List Char :=
  '/' :: path.dropWhile (fun c => c = '/')

/-- `strings.Trim(p, "/")`: remove leading and trailing runs of `/`. -/
def trimSlashes (s : List Char) : List Char :=
  ((s.dropWhile (fun c => c = '/')).reverse.dropWhile (fun c => c = '/')).reverse

/-- `strings.Split(s, "/")`: split on every `/`, keeping empty pieces;
the empty string yields one empty piece. -/
def splitSlash : List Char → List (List Char)
  | [] => [[]]
  | c :: rest =>
    if c = '/' then [] :: splitSlash rest
    else
      match splitSlash rest with
      | piece :: pieces => (c :: piece) :: pieces
      | [] => [[c]]

/-- `strings.IndexAny(s, ":*")`: index of the first marker character,
`none` when there is none. -/
def indexAny : List Char → Option Nat
  | [] => none
  | c :: rest => if isMarker c then some 0 else (indexAny rest).map (· + 1)

/-- The segment matcher `match(segments, url, ps, ts)` from router.go
(lines 307-335), with the default comparison function (string
equality).  Each compiled segment is a string beginning with `/`.
Evaluating `seg[1]` on a segment shorter than two bytes is a Go panic,
modelled as `none`.  The returned pair is the boolean result together
with the final contents of `*ps` (the Go code appends into the slice
through the pointer, also on paths that later fail). -/
def matchSegs : List (List Char) → List Char → Params → Bool → Option (Bool × Params)
  | [], url, ps, ts =>
    some (((!ts && url.isEmpty) || (ts && url == ['/'])), ps)
  | seg :: rest, url, ps, ts =>
    if url.length = 0 then some (false, ps)
    else
      match seg[1]? with
      | none => none
      | some c =>
        if c = ':' then
          let val := (url.drop 1).takeWhile (fun ch => ch ≠ '/')
          matchSegs rest (url.drop (1 + val.length)) (ps ++ [(seg.drop 2, val)]) ts
        else if c = '*' then
          some (true, ps ++ [(seg.drop 2, url)])
        else
          if url.length < seg.length then some (false, ps)
          else if url.take seg.length == seg then
            matchSegs rest (url.drop seg.length) ps ts
          else some (false, ps)

/-- The registration-time panics of `Route` (router.go lines 221-258). -/
inductive RouteErr where
  | badHandler : RouteErr
  | notAfterSlash : RouteErr
  | unnamed : RouteErr
  | catchAllNotLast : RouteErr
  | multiParam : RouteErr
deriving DecidableEq

/-- The handler argument of `Route` (`interface{}`): the two accepted
dynamic types of the Go type switch, or any other value. -/
inductive HandlerRep where
  | handlerFunc (h : Nat) : HandlerRep
  | plainFunc (h : Nat) : HandlerRep
  | other : HandlerRep
deriving DecidableEq

/-- Validation of one unprefixed pattern segment, mirroring the loop
body in `Route` (router.go lines 245-259). -/
def validateSeg (seg : List Char) (isLast : Bool) : Option RouteErr :=
  match indexAny seg with
  | none => none
  | some pos =>
    if pos ≠ 0 then some .notAfterSlash
    else if seg.length - 1 = pos then some .unnamed
    else if seg[0]? = some '*' && !isLast then some .catchAllNotLast
    else if indexAny (seg.drop 1) ≠ none then some .multiParam
    else none

/-- Validation of the whole segment list in loop order, reporting the
first panic. -/
def validateSegs : List (List Char) → Option RouteErr
  | [] => none
  | [seg] => validateSeg seg true
  | seg :: rest => (validateSeg seg false).orElse (fun _ => validateSegs rest)

/-- A `*parameters` carrier (router.go lines 346-351): the saved
`ReadCloser`, the params slice, the pattern string, and whether it has
a back-reference to a pool (`pool != nil`). -/
structure Carrier where
  readCloser : BodyVal
  params : Params
  pattern : List Char
  hasPool : Bool
deriving DecidableEq

/-- A request: its (mutable) `Body` slot and its URL path. -/
structure Req where
  body : BodyVal
  path : List Char
deriving DecidableEq

/-- A compiled dynamic route: the prefixed segments, the
trailing-slash flag `ts`, and the normalized pattern `p`. -/
structure DynRoute where
  segments : List (List Char)
  ts : Bool
  pattern : List Char
deriving DecidableEq

/-- A compiled static route: normalized pattern, the handler, and the
single shared carrier `ps` (router.go line 233), which has empty
params and no pool. -/
structure StaticRoute where
  p : List Char
  handler : Nat
  carrier : Carrier
deriving DecidableEq

/-- What `Route` builds when it does not panic. -/
inductive RouteModel where
  | staticR (st : StaticRoute) : RouteModel
  | dynamicR (rt : DynRoute) (num : Nat) : RouteModel
deriving DecidableEq

/-- The static branch of `Route` (router.go lines 231-241): the shared
carrier starts with a nil `ReadCloser`, empty params, the normalized
pattern, and no pool. -/
def mkStaticRoute (path : List Char) (h : Nat) : StaticRoute :=
  ⟨normalize path, h, ⟨BodyVal.null, [], normalize path, false⟩⟩

/-- `Route(path, handler)` (router.go lines 218-267): normalize the
pattern, check the handler's dynamic type, classify static/dynamic,
validate dynamic segments, and record `ts` and the parameter count
`num = strings.Count(p, ":") + strings.Count(p, "*")`. -/
def route (path : List Char) (h : HandlerRep) : Except RouteErr RouteModel :=
  let p := normalize path
  match h with
  | .other => .error .badHandler
  | .handlerFunc k => routeBody p path k
  | .plainFunc k => routeBody p path k
where
  routeBody (p path : List Char) (k : Nat) : Except RouteErr RouteModel :=
    if indexAny p = none then .ok (.staticR (mkStaticRoute path k))
    else
      let pieces := splitSlash (trimSlashes p)
      match validateSegs pieces with
      | some e => .error e
      | none =>
        .ok (.dynamicR
          { segments := pieces.map (fun s => '/' :: s)
            ts := p.getLast? == some '/'
            pattern := p }
          (p.countP isMarker))

/-- The static route matcher closure (router.go lines 234-240): on a
path equal to the stored pattern, wrap the shared carrier (saving the
request body into it, installing the carrier — heap id 0 denotes the
shared carrier — into the body slot) and return the handler. -/
def staticRouteMatch (st : StaticRoute) (r : Req) : Option Nat × StaticRoute × Req :=
  if st.p == r.path then
    (some st.handler,
     { st with carrier := { st.carrier with readCloser := r.body } },
     { r with body := BodyVal.carrier 0 })
  else (none, st, r)

/-- The state of one dynamic route's `sync.Pool`: a heap of carriers
indexed by id, an allocation counter, and the free list.  `sync.Pool`
is modelled deterministically: `Get` pops the most recently `Put`
carrier, or allocates a fresh one via `pool.New`.  Cells that were
never allocated hold the `pool.New` value (which is what `Get` would
produce for them); `poolGet` overwrites the cell on allocation anyway. -/
structure PoolState where
  heap : Nat → Carrier
  next : Nat
  free : List Nat

/-- Point update of the carrier heap. -/
def updateHeap (h : Nat → Carrier) (i : Nat) (v : Carrier) : Nat → Carrier :=
  fun j => if j = i then v else h j

/-- The carrier produced by `pool.New` (router.go lines 265-267):
empty params, the route's pattern, a pool back-reference, and a zero
(nil) `ReadCloser`. -/
def newCarrier (pat : List Char) : Carrier :=
  ⟨BodyVal.null, [], pat, true⟩

/-- The pool of a freshly constructed dynamic route: nothing drawn yet. -/
def initPool (pat : List Char) : PoolState :=
  ⟨fun _ => newCarrier pat, 0, []⟩

/-- `pool.Get()`: reuse a free carrier or allocate a new one. -/
def poolGet (pat : List Char) (s : PoolState) : Nat × PoolState :=
  match s.free with
  | c :: rest => (c, { s with free := rest })
  | [] =>
    (s.next,
     { heap := updateHeap s.heap s.next (newCarrier pat)
       next := s.next + 1
       free := [] })

/-- `(*parameters).wrap(req)` (router.go lines 353-356): save the
request body into the carrier and install the carrier in the slot. -/
def wrap (s : PoolState) (c : Nat) (r : Req) : PoolState × Req :=
  ({ s with heap := updateHeap s.heap c { s.heap c with readCloser := r.body } },
   { r with body := BodyVal.carrier c })

/-- `(*parameters).reset(req)` (router.go lines 358-364): if the
carrier has a pool, truncate its params and `Put` it back; then write
the carrier's saved `ReadCloser` into the request's body slot. -/
def reset (s : PoolState) (c : Nat) (r : Req) : PoolState × Req :=
  let s' :=
    if (s.heap c).hasPool then
      { s with
        heap := updateHeap s.heap c { s.heap c with params := [] }
        free := c :: s.free }
    else s
  (s', { r with body := (s'.heap c).readCloser })

/-- `parameterized(req)` (router.go lines 366-371): the carrier
installed in the body slot, if any. -/
def parameterized (r : Req) : Option Nat :=
  match r.body with
  | .carrier c => some c
  | _ => none

/-- `Recycle(req)` (router.go lines 117-121), acting on a dynamic
route's pool. -/
def recycle (s : PoolState) (r : Req) : PoolState × Req :=
  match parameterized r with
  | some c => reset s c r
  | none => (s, r)

/-- The wrapping handler `handle` of a dynamic route (router.go lines
270-275): run the bound handler (which leaves the body slot and pool
alone), then reset the installed carrier if one is present.  Its tail
is the same code as `Recycle`. -/
def serveHandle (s : PoolState) (r : Req) : PoolState × Req :=
  match parameterized r with
  | some c => reset s c r
  | none => (s, r)

/-- The dynamic route matcher closure (router.go lines 278-286): draw
a carrier, run the segment matcher into its params, then either wrap
and return the handler (`true`) or reset and return nil (`false`).
`none` is a request-time panic inside `match`. -/
def dynMatch (rt : DynRoute) (s : PoolState) (r : Req) :
    Option (Bool × PoolState × Req) :=
  let drawn := poolGet rt.pattern s
  let c := drawn.1
  let s1 := drawn.2
  match matchSegs rt.segments r.path ((s1.heap c).params) rt.ts with
  | none => none
  | some (ok, ps') =>
    let s2 := { s1 with heap := updateHeap s1.heap c { s1.heap c with params := ps' } }
    if ok then
      let wr := wrap s2 c r
      some (true, wr.1, wr.2)
    else
      let rs := reset s2 c r
      some (false, rs.1, rs.2)

/-- `Pattern(req)` (router.go lines 95-100) over a dynamic route's
pool: the installed carrier's pattern, or the empty string. -/
def patternIntro (s : PoolState) (r : Req) : List Char :=
  match parameterized r with
  | some c => (s.heap c).pattern
  | none => []

/-- `Pattern(req)` after a static route's match: the shared carrier's
pattern if the carrier is installed, else the empty string. -/
def staticPatternIntro (st : StaticRoute) (r : Req) : List Char :=
  match parameterized r with
  | some _ => st.carrier.pattern
  | none => []

/-- One complete request against a dynamic route: a `Match` attempt
in which a successful match is immediately served (running the
wrapping handler, which reclaims the carrier).  `none` is a
request-time panic. -/
def attempt (rt : DynRoute) (s : PoolState) (rq : BodyVal × List Char) :
    Option PoolState :=
  match dynMatch rt s ⟨rq.1, rq.2⟩ with
  | none => none
  | some (true, s', r') => some (serveHandle s' r').1
  | some (false, s', _) => some s'

/-- A sequence of complete requests against one dynamic route. -/
def runAll (rt : DynRoute) (s : PoolState) : List (BodyVal × List Char) → Option PoolState
  | [] => some s
  | rq :: rest =>
    match attempt rt s rq with
    | none => none
    | some s' => runAll rt s' rest

/-- `New(routes...).Match` (router.go lines 191-201): try the routers
in order, return the first non-nil handler. -/
def newMatch {α β : Type} : List (α → Option β) → α → Option β
  | [], _ => none
  | router :: rest, r =>
    match router r with
    | some h => some h
    | none => newMatch rest r

/-- All carriers reachable in a dynamic route's pool carry the route's
pattern and a pool back-reference, exactly as `pool.New` makes them. -/
def poolInv (pat : List Char) (s : PoolState) : Prop :=
  ∀ c, (s.heap c).pattern = pat ∧ (s.heap c).hasPool = true

/-! ## Helper lemmas about the segment matcher -/

/-- A literal segment consumes exactly itself from the front of the
remaining path. -/
theorem matchSegs_literal_step (seg : List Char) (rest : List (List Char))
    (s : List Char) (ps : Params) (ts : Bool) (c : Char)
    (h1 : seg[1]? = some c) (hc1 : c ≠ ':') (hc2 : c ≠ '*') :
    matchSegs (seg :: rest) (seg ++ s) ps ts = matchSegs rest s ps ts := by
  have hlt : 1 < seg.length := (List.getElem?_eq_some.mp h1).1
  have hlen : (seg ++ s).length = seg.length + s.length := List.length_append seg s
  simp only [matchSegs, h1, hlen]
  rw [if_neg (by omega), if_neg hc1, if_neg hc2, if_neg (by omega)]
  rw [List.take_left, List.drop_left]
  simp

/-- A catch-all segment matches immediately on any nonempty remaining
path, binding its key to the whole remainder. -/
theorem matchSegs_catchAll_step (seg : List Char) (rest : List (List Char))
    (url : List Char) (ps : Params) (ts : Bool)
    (h1 : seg[1]? = some '*') (hu : url ≠ []) :
    matchSegs (seg :: rest) url ps ts = some (true, ps ++ [(seg.drop 2, url)]) := by
  have hlen : url.length ≠ 0 := fun h => hu (List.length_eq_zero.mp h)
  simp only [matchSegs, h1]
  rw [if_neg hlen]
  simp

/-! ## Claim theorems -/

/-- C1: the pattern `/blog/:category/:post` compiles to the expected
segments; the matcher accepts `/blog/go/request-routers` with
`category="go"`, `post="request-routers"`, and rejects a path with an
extra trailing segment — but, contradicting the claim and the package
documentation in router.go (lines 50-54, "/blog/go/  no match"), it
also accepts `/blog/go/`, binding `post` to the empty string at path
end: the `:post` step consumes the final `/`, binds `""`, and leaves
an empty remainder that passes the final remaining-path check. -/
theorem c1_code_behavior :
    route "/blog/:category/:post".toList (.handlerFunc 0) =
      .ok (.dynamicR ⟨["/blog".toList, "/:category".toList, "/:post".toList], false,
        "/blog/:category/:post".toList⟩ 2) ∧
    matchSegs ["/blog".toList, "/:category".toList, "/:post".toList]
      "/blog/go/request-routers".toList [] false =
      some (true, [("category".toList, "go".toList), ("post".toList, "request-routers".toList)]) ∧
    matchSegs ["/blog".toList, "/:category".toList, "/:post".toList]
      "/blog/go/request-routers/comments".toList [] false =
      some (false, [("category".toList, "go".toList), ("post".toList, "request-routers".toList)]) ∧
    matchSegs ["/blog".toList, "/:category".toList, "/:post".toList]
      "/blog/go/".toList [] false =
      some (true, [("category".toList, "go".toList), ("post".toList, [])]) :=
  ⟨rfl, rfl, rfl, rfl⟩

/-- C2: for the dynamic route `/x/:y` with a fresh pool, a request
with body stream `7` and non-matching path `/zz` gets `nil` from
`Match` (as the claim says), but its `Body` slot afterwards is the Go
`nil` saved in the freshly drawn carrier, not the stream `7` it held
before: the failure path calls `reset` on a carrier that was never
wrapped for this request, so the "restored" value is stale. -/
theorem c2_code_behavior :
    route "/x/:y".toList (.handlerFunc 0) =
      .ok (.dynamicR ⟨["/x".toList, "/:y".toList], false, "/x/:y".toList⟩ 1) ∧
    (dynMatch ⟨["/x".toList, "/:y".toList], false, "/x/:y".toList⟩
        (initPool "/x/:y".toList) ⟨.stream 7, "/zz".toList⟩).map
      (fun t => (t.1, t.2.1.free, t.2.2)) =
      some (false, [0], ⟨BodyVal.null, "/zz".toList⟩) ∧
    BodyVal.null ≠ BodyVal.stream 7 :=
  ⟨rfl, rfl, by decide⟩

/-- C3 counterexample: matching two requests that differ only in
their bodies against the same static route leaves the shared carrier
in two different states (its saved `ReadCloser` is the matched
request's previous body), so a static-route `Match` does store a
request-dependent value into the shared carrier and the carrier's
state after a match is not independent of which request was matched. -/
theorem c3_counterexample :
    (staticRouteMatch (mkStaticRoute "/s".toList 1) ⟨.stream 1, "/s".toList⟩).2.1 ≠
    (staticRouteMatch (mkStaticRoute "/s".toList 1) ⟨.stream 2, "/s".toList⟩).2.1 := by
  decide

/-- C3 amended: a static-route `Match` can change nothing of the
shared carrier except its saved-body (`ReadCloser`) field — in
particular the carrier's `Parameters` and pattern are never modified,
and the route's shared carrier has permanently empty `Parameters`. -/
theorem c3_amended (st : StaticRoute) (r : Req) (path : List Char) (k : Nat) :
    (staticRouteMatch st r).2.1.carrier =
      { st.carrier with readCloser := (staticRouteMatch st r).2.1.carrier.readCloser } ∧
    (mkStaticRoute path k).carrier.params = [] := by
  refine ⟨?_, rfl⟩
  simp only [staticRouteMatch]
  split <;> rfl

/-- C4 counterexample: for the static pattern `/users/hello` and the
request path `//users/hello`, leading-slash normalization of the path
equals the normalized pattern, yet the static match fails: the code
compares the request path verbatim against the normalized pattern. -/
theorem c4_counterexample :
    ¬(((staticRouteMatch (mkStaticRoute "/users/hello".toList 0)
          ⟨.null, "//users/hello".toList⟩).1 = some 0) ↔
      normalize "//users/hello".toList = normalize "/users/hello".toList) := by
  decide

/-- C4 amended: a static route's match succeeds exactly when the
request path is equal, character for character, to the pattern after
leading-slash normalization (the request path itself is not
normalized); in particular `/users/hello` matches `/users/hello` but
neither `/user/hello` nor `/users/hello/`. -/
theorem c4_amended (path : List Char) (k : Nat) (r : Req) :
    ((staticRouteMatch (mkStaticRoute path k) r).1 = some k ↔ r.path = normalize path) ∧
    (staticRouteMatch (mkStaticRoute "/users/hello".toList 5)
      ⟨.null, "/users/hello".toList⟩).1 = some 5 ∧
    (staticRouteMatch (mkStaticRoute "/users/hello".toList 5)
      ⟨.null, "/user/hello".toList⟩).1 = none ∧
    (staticRouteMatch (mkStaticRoute "/users/hello".toList 5)
      ⟨.null, "/users/hello/".toList⟩).1 = none := by
  refine ⟨?_, rfl, rfl, rfl⟩
  simp only [staticRouteMatch, mkStaticRoute]
  split
  · rename_i h
    simp only [beq_iff_eq] at h
    simp [h]
  · rename_i h
    simp only [beq_iff_eq] at h
    constructor
    · intro hc
      exact absurd hc (by simp)
    · intro hc
      exact absurd hc.symm h

/-- C8 counterexample: the pattern string `x/:y` compiles without
error, and the route matches `/x/5`, but `Pattern` introspection
after the match returns the normalized string `/x/:y`, not the
original registration string `x/:y`. -/
theorem c8_counterexample :
    route "x/:y".toList (.handlerFunc 0) =
      .ok (.dynamicR ⟨["/x".toList, "/:y".toList], false, "/x/:y".toList⟩ 1) ∧
    (dynMatch ⟨["/x".toList, "/:y".toList], false, "/x/:y".toList⟩
        (initPool "/x/:y".toList) ⟨.stream 7, "/x/5".toList⟩).map
      (fun t => (t.1, patternIntro t.2.1 t.2.2)) = some (true, "/x/:y".toList) ∧
    "/x/:y".toList ≠ "x/:y".toList :=
  ⟨rfl, rfl, by decide⟩

/-- C5: the pattern `/files/*filepath` compiles to a literal segment
and a final catch-all segment; matching fails when the remaining path
after the literal prefix is empty (`/files` does not match), and for
any nonempty remainder `s` the catch-all binds `filepath` to `s`
verbatim (leading slash included) and succeeds immediately: `/files/`
matches with `filepath="/"` and `/files/a/b` with `filepath="/a/b"`. -/
theorem c5_catch_all (s : List Char) (hs : s ≠ []) :
    route "/files/*filepath".toList (.plainFunc 0) =
      .ok (.dynamicR ⟨["/files".toList, "/*filepath".toList], false,
        "/files/*filepath".toList⟩ 1) ∧
    matchSegs ["/files".toList, "/*filepath".toList] ("/files".toList ++ s) [] false =
      some (true, [("filepath".toList, s)]) ∧
    matchSegs ["/files".toList, "/*filepath".toList] "/files".toList [] false =
      some (false, []) ∧
    matchSegs ["/files".toList, "/*filepath".toList] "/files/".toList [] false =
      some (true, [("filepath".toList, "/".toList)]) ∧
    matchSegs ["/files".toList, "/*filepath".toList] "/files/a/b".toList [] false =
      some (true, [("filepath".toList, "/a/b".toList)]) := by
  refine ⟨rfl, ?_, rfl, rfl, rfl⟩
  rw [matchSegs_literal_step "/files".toList _ s [] false 'f' rfl (by decide) (by decide)]
  rw [matchSegs_catchAll_step _ _ s [] false rfl hs]
  rfl

/-- C5 witness: the theorem applied at the concrete remainder `/`. -/
theorem c5_catch_all_witness :
    route "/files/*filepath".toList (.plainFunc 0) =
      .ok (.dynamicR ⟨["/files".toList, "/*filepath".toList], false,
        "/files/*filepath".toList⟩ 1) ∧
    matchSegs ["/files".toList, "/*filepath".toList]
      ("/files".toList ++ "/".toList) [] false =
      some (true, [("filepath".toList, "/".toList)]) ∧
    matchSegs ["/files".toList, "/*filepath".toList] "/files".toList [] false =
      some (false, []) ∧
    matchSegs ["/files".toList, "/*filepath".toList] "/files/".toList [] false =
      some (true, [("filepath".toList, "/".toList)]) ∧
    matchSegs ["/files".toList, "/*filepath".toList] "/files/a/b".toList [] false =
      some (true, [("filepath".toList, "/a/b".toList)]) :=
  c5_catch_all "/".toList (by decide)

/-- C10: the composite dispatcher built by `New` returns the first
non-nil handler in registration order: whenever every router before
`f` rejects the request and `f` matches it, the composite returns
`f`'s handler — in particular a later matching route is never the one
returned. -/
theorem c10_first_match {α β : Type} (pre : List (α → Option β)) (f : α → Option β)
    (post : List (α → Option β)) (r : α) (h : β)
    (hpre : ∀ g ∈ pre, g r = none) (hf : f r = some h) :
    newMatch (pre ++ f :: post) r = some h := by
  induction pre with
  | nil => simp [newMatch, hf]
  | cons g gs ih =>
    have hg : g r = none := hpre g (by simp)
    simp only [List.cons_append, newMatch, hg]
    exact ih (fun g' hg' => hpre g' (by simp [hg']))

/-- C10 witness: two routers matching the same request; the composite
returns the first one's handler, not the second one's. -/
theorem c10_first_match_witness :
    newMatch ([fun _ => none] ++ (fun _ => some 5) :: [fun _ => some 9]) (0 : Nat) =
      some 5 :=
  c10_first_match [fun _ => none] (fun _ => some 5) [fun _ => some 9] 0 5
    (by intro g hg; simp at hg; subst hg; rfl) rfl

/-- `serveHandle` and `recycle` are the same code. -/
theorem serveHandle_eq_recycle : @serveHandle = @recycle := rfl

/-- Resetting a carrier whose saved `ReadCloser` is a host stream puts
a non-carrier value in the body slot, so a subsequent `Recycle` is a
no-op. -/
theorem reset_stream_noop (s : PoolState) (c : Nat) (r : Req) (n : Nat)
    (h : (s.heap c).readCloser = BodyVal.stream n) :
    recycle (reset s c r).1 (reset s c r).2 = reset s c r := by
  simp only [reset]
  split
  · simp [recycle, parameterized, updateHeap, h]
  · simp [recycle, parameterized, h]

/-- `Recycle` on a request wearing a freshly wrapped carrier resets
that carrier, and doing it again is a no-op when the wrapped request's
body was a host stream. -/
theorem recycle_wrap (s : PoolState) (c : Nat) (r : Req) (n : Nat)
    (hb : r.body = BodyVal.stream n) :
    recycle (recycle (wrap s c r).1 (wrap s c r).2).1
        (recycle (wrap s c r).1 (wrap s c r).2).2 =
      recycle (wrap s c r).1 (wrap s c r).2 := by
  have h1 : recycle (wrap s c r).1 (wrap s c r).2 = reset (wrap s c r).1 c (wrap s c r).2 := by
    simp [recycle, wrap, parameterized]
  rw [h1]
  exact reset_stream_noop _ _ _ n (by simp [wrap, updateHeap, hb])

/-- C9: after a successful dynamic match of a request whose body slot
held a host stream, the wrapped carrier's reclamation (either by the
serving wrapper or by `Recycle`) restores the stream into the body
slot; a second `Recycle` then finds no carrier in the slot and is a
no-op — it changes neither the pool state nor the request, so no pool
operation happens and no subsequently drawn carrier is touched. -/
theorem c9_recycle_idem (rt : DynRoute) (s : PoolState) (r : Req) (n : Nat)
    (s1 : PoolState) (r1 : Req)
    (hb : r.body = BodyVal.stream n)
    (hm : dynMatch rt s r = some (true, s1, r1)) :
    recycle (recycle s1 r1).1 (recycle s1 r1).2 = recycle s1 r1 ∧
    recycle (serveHandle s1 r1).1 (serveHandle s1 r1).2 = serveHandle s1 r1 := by
  simp only [dynMatch] at hm
  split at hm
  · exact absurd hm (by simp)
  · split at hm
    · simp only [Option.some.injEq, Prod.mk.injEq, true_and] at hm
      obtain ⟨h1, h2⟩ := hm
      subst h1
      subst h2
      rw [serveHandle_eq_recycle]
      exact ⟨recycle_wrap _ _ _ n hb, recycle_wrap _ _ _ n hb⟩
    · exact absurd hm (by simp)

/-! ## Pool invariant and step lemmas -/

/-- The initial pool of a dynamic route satisfies the pool invariant. -/
theorem poolInv_init (pat : List Char) : poolInv pat (initPool pat) :=
  fun _ => ⟨rfl, rfl⟩

/-- Drawing from the pool preserves the invariant. -/
theorem poolInv_poolGet (pat : List Char) (s : PoolState) (h : poolInv pat s) :
    poolInv pat (poolGet pat s).2 := by
  intro c
  simp only [poolGet]
  split
  · exact h c
  · simp only [updateHeap]
    split
    · exact ⟨rfl, rfl⟩
    · exact h c

/-- Looking up the cell just written. -/
theorem updateHeap_same (h : Nat → Carrier) (c : Nat) (v : Carrier) :
    updateHeap h c v c = v := by
  simp [updateHeap]

/-- Writing a carrier with the route's pattern and pool flag into any
cell preserves the heap-level invariant. -/
theorem heapInv_update (pat : List Char) (h : Nat → Carrier)
    (hh : ∀ c0, (h c0).pattern = pat ∧ (h c0).hasPool = true)
    (c : Nat) (v : Carrier) (hv : v.pattern = pat ∧ v.hasPool = true) :
    ∀ c0, ((updateHeap h c v) c0).pattern = pat ∧ ((updateHeap h c v) c0).hasPool = true := by
  intro c0
  simp only [updateHeap]
  split
  · exact hv
  · exact hh c0

/-- What a failed dynamic `Match` does to the pool: the drawn carrier
is pushed back on the free list (the one popped by `Get`, or a fresh
one), the invariant is preserved, and the request's body slot receives
the carrier's saved `ReadCloser`. -/
theorem dynMatch_fail (rt : DynRoute) (s : PoolState) (r : Req)
    (s' : PoolState) (r' : Req) (hinv : poolInv rt.pattern s)
    (hm : dynMatch rt s r = some (false, s', r')) :
    s'.free = (poolGet rt.pattern s).1 :: (poolGet rt.pattern s).2.free ∧
    poolInv rt.pattern s' := by
  simp only [dynMatch] at hm
  split at hm
  · exact absurd hm (by simp)
  · rename_i x ok ps' heq
    split at hm
    · exact absurd hm (by simp)
    · simp only [Option.some.injEq, Prod.mk.injEq, true_and] at hm
      obtain ⟨h1, -⟩ := hm
      subst h1
      have hh1 := poolInv_poolGet rt.pattern s hinv
      have hh2 := heapInv_update rt.pattern (poolGet rt.pattern s).2.heap hh1
        (poolGet rt.pattern s).1
        { (poolGet rt.pattern s).2.heap (poolGet rt.pattern s).1 with params := ps' }
        ⟨(hh1 (poolGet rt.pattern s).1).1, (hh1 (poolGet rt.pattern s).1).2⟩
      constructor
      · simp only [reset]
        split
        · rfl
        · rename_i hno
          exact absurd (hh2 (poolGet rt.pattern s).1).2 hno
      · simp only [reset]
        split
        · exact heapInv_update rt.pattern _ hh2 (poolGet rt.pattern s).1 _
            ⟨(hh2 (poolGet rt.pattern s).1).1, (hh2 (poolGet rt.pattern s).1).2⟩
        · rename_i hno
          exact absurd (hh2 (poolGet rt.pattern s).1).2 hno

/-- What a successful dynamic `Match` does: the drawn carrier is
wrapped into the request, the free list is the one left by `Get`, the
invariant is preserved, and the carrier holds the route's pattern. -/
theorem dynMatch_succ (rt : DynRoute) (s : PoolState) (r : Req)
    (s' : PoolState) (r' : Req) (hinv : poolInv rt.pattern s)
    (hm : dynMatch rt s r = some (true, s', r')) :
    r'.body = BodyVal.carrier (poolGet rt.pattern s).1 ∧
    s'.free = (poolGet rt.pattern s).2.free ∧
    poolInv rt.pattern s' := by
  simp only [dynMatch] at hm
  split at hm
  · exact absurd hm (by simp)
  · rename_i x ok ps' heq
    split at hm
    · simp only [Option.some.injEq, Prod.mk.injEq, true_and] at hm
      obtain ⟨h1, h2⟩ := hm
      subst h1
      subst h2
      refine ⟨rfl, rfl, ?_⟩
      have hh1 := poolInv_poolGet rt.pattern s hinv
      have hh2 := heapInv_update rt.pattern (poolGet rt.pattern s).2.heap hh1
        (poolGet rt.pattern s).1
        { (poolGet rt.pattern s).2.heap (poolGet rt.pattern s).1 with params := ps' }
        ⟨(hh1 (poolGet rt.pattern s).1).1, (hh1 (poolGet rt.pattern s).1).2⟩
      exact heapInv_update rt.pattern _ hh2 (poolGet rt.pattern s).1 _
        ⟨(hh2 (poolGet rt.pattern s).1).1, (hh2 (poolGet rt.pattern s).1).2⟩
    · exact absurd hm (by simp)

/-- `Get` never shrinks the free list by more than the element it
hands out. -/
theorem poolGet_free_len (pat : List Char) (s : PoolState) :
    s.free.length ≤ ((poolGet pat s).1 :: (poolGet pat s).2.free).length := by
  simp only [poolGet]
  split <;> simp_all

/-- One complete request (match then serve on success) preserves the
invariant and never shrinks the free list. -/
theorem attempt_mono (rt : DynRoute) (s : PoolState) (rq : BodyVal × List Char)
    (s2 : PoolState) (hinv : poolInv rt.pattern s)
    (ha : attempt rt s rq = some s2) :
    s.free.length ≤ s2.free.length ∧ poolInv rt.pattern s2 := by
  simp only [attempt] at ha
  split at ha
  · exact absurd ha (by simp)
  · rename_i s' r' hm
    obtain ⟨hb, hf, hinv'⟩ := dynMatch_succ rt s _ s' r' hinv hm
    simp only [Option.some.injEq] at ha
    subst ha
    rw [serveHandle_eq_recycle]
    have hpool := (hinv' (poolGet rt.pattern s).1).2
    have : recycle s' r' = reset s' (poolGet rt.pattern s).1 r' := by
      simp [recycle, parameterized, hb]
    rw [this]
    constructor
    · simp only [reset]
      split
      · simp only [hf]
        exact poolGet_free_len rt.pattern s
      · rename_i hno
        exact absurd hpool hno
    · simp only [reset]
      split
      · exact heapInv_update rt.pattern _ hinv' _ _
          ⟨(hinv' (poolGet rt.pattern s).1).1, (hinv' (poolGet rt.pattern s).1).2⟩
      · rename_i hno
        exact absurd hpool hno
  · rename_i s' r' hm
    obtain ⟨hf, hinv'⟩ := dynMatch_fail rt s _ s' r' hinv hm
    simp only [Option.some.injEq] at ha
    subst ha
    refine ⟨?_, hinv'⟩
    rw [hf]
    exact poolGet_free_len rt.pattern s

/-- The compiled dynamic route `/x/:y` (concrete instance used by
several witnesses). -/
def rtXY : DynRoute := ⟨["/x".toList, "/:y".toList], false, "/x/:y".toList⟩

/-- The fresh pool of `rtXY`. -/
def poolXY : PoolState := initPool "/x/:y".toList

/-- The pool state and request produced by a concrete successful
match of `/x/5` against the route `/x/:y`. -/
def packXY : PoolState × Req :=
  match dynMatch rtXY poolXY ⟨.stream 7, "/x/5".toList⟩ with
  | some (_, s, r) => (s, r)
  | none => (poolXY, ⟨.stream 7, "/x/5".toList⟩)

/-- The pool state and request produced by a concrete failed match of
`/zz` against the route `/x/:y`. -/
def failPackXY : PoolState × Req :=
  match dynMatch rtXY poolXY ⟨.null, "/zz".toList⟩ with
  | some (_, s, r) => (s, r)
  | none => (poolXY, ⟨.null, "/zz".toList⟩)

/-- The pool state after a concrete two-request sequence against the
route `/x/:y`: one failed match, then one served match. -/
def runPackXY : PoolState :=
  match runAll rtXY poolXY [(.null, "/zz".toList), (.stream 1, "/x/9".toList)] with
  | some s => s
  | none => poolXY

/-- C9 witness: the idempotence theorem applied to the concrete match
of `/x/5` against `/x/:y`. -/
theorem c9_recycle_idem_witness :
    recycle (recycle packXY.1 packXY.2).1 (recycle packXY.1 packXY.2).2 =
      recycle packXY.1 packXY.2 ∧
    recycle (serveHandle packXY.1 packXY.2).1 (serveHandle packXY.1 packXY.2).2 =
      serveHandle packXY.1 packXY.2 :=
  c9_recycle_idem rtXY poolXY ⟨.stream 7, "/x/5".toList⟩ 7 packXY.1 packXY.2 rfl rfl

/-- C6: (a) whenever a dynamic `Match` fails, the carrier drawn by
`Get` is back on the same route's free list when `Match` returns, and
the free list is at least as long as before; (b) across any sequence
of complete requests (each match attempt either fails or is served,
which recycles its carrier), the pool's free list never shrinks. -/
theorem c6_pool_nondecreasing :
    (∀ (rt : DynRoute) (s : PoolState) (r : Req) (s' : PoolState) (r' : Req),
      poolInv rt.pattern s → dynMatch rt s r = some (false, s', r') →
      (poolGet rt.pattern s).1 ∈ s'.free ∧ s.free.length ≤ s'.free.length) ∧
    (∀ (rt : DynRoute) (s : PoolState) (reqs : List (BodyVal × List Char)) (s2 : PoolState),
      poolInv rt.pattern s → runAll rt s reqs = some s2 →
      s.free.length ≤ s2.free.length) := by
  constructor
  · intro rt s r s' r' hinv hm
    obtain ⟨hf, -⟩ := dynMatch_fail rt s r s' r' hinv hm
    rw [hf]
    exact ⟨List.mem_cons_self _ _, poolGet_free_len rt.pattern s⟩
  · intro rt s reqs
    induction reqs generalizing s with
    | nil =>
      intro s2 hinv h
      simp only [runAll, Option.some.injEq] at h
      subst h
      exact le_refl _
    | cons rq rest ih =>
      intro s2 hinv h
      simp only [runAll] at h
      split at h
      · exact absurd h (by simp)
      · rename_i s1 ha
        obtain ⟨hlen, hinv1⟩ := attempt_mono rt s rq s1 hinv ha
        exact le_trans hlen (ih s1 s2 hinv1 h)

/-- C6 witness: both parts applied to the route `/x/:y` with a fresh
pool — a failed match of `/zz`, and the two-request sequence. -/
theorem c6_pool_nondecreasing_witness :
    ((poolGet rtXY.pattern poolXY).1 ∈ failPackXY.1.free ∧
      poolXY.free.length ≤ failPackXY.1.free.length) ∧
    poolXY.free.length ≤ runPackXY.free.length :=
  ⟨c6_pool_nondecreasing.1 rtXY poolXY ⟨.null, "/zz".toList⟩
      failPackXY.1 failPackXY.2 (poolInv_init _) rfl,
    c6_pool_nondecreasing.2 rtXY poolXY
      [(.null, "/zz".toList), (.stream 1, "/x/9".toList)] runPackXY (poolInv_init _) rfl⟩

/-- A static route built by `Route` stores the normalized pattern,
both as match target and in its shared carrier. -/
theorem route_staticR_shape (path : List Char) (hrep : HandlerRep) (st : StaticRoute)
    (hc : route path hrep = .ok (.staticR st)) :
    st.p = normalize path ∧ st.carrier = ⟨BodyVal.null, [], normalize path, false⟩ := by
  cases hrep with
  | other => exact absurd hc (by simp [route])
  | handlerFunc k0 =>
    simp only [route, route.routeBody] at hc
    split at hc
    · simp only [Except.ok.injEq, RouteModel.staticR.injEq] at hc
      subst hc
      exact ⟨rfl, rfl⟩
    · split at hc
      · exact absurd hc (by simp)
      · exact absurd hc (by simp)
  | plainFunc k0 =>
    simp only [route, route.routeBody] at hc
    split at hc
    · simp only [Except.ok.injEq, RouteModel.staticR.injEq] at hc
      subst hc
      exact ⟨rfl, rfl⟩
    · split at hc
      · exact absurd hc (by simp)
      · exact absurd hc (by simp)

/-- A dynamic route built by `Route` carries the normalized pattern. -/
theorem route_dynamicR_pattern (path : List Char) (hrep : HandlerRep)
    (rt : DynRoute) (n : Nat)
    (hc : route path hrep = .ok (.dynamicR rt n)) :
    rt.pattern = normalize path := by
  cases hrep with
  | other => exact absurd hc (by simp [route])
  | handlerFunc k0 =>
    simp only [route, route.routeBody] at hc
    split at hc
    · exact absurd hc (by simp)
    · split at hc
      · exact absurd hc (by simp)
      · simp only [Except.ok.injEq, RouteModel.dynamicR.injEq] at hc
        obtain ⟨h1, -⟩ := hc
        subst h1
        rfl
  | plainFunc k0 =>
    simp only [route, route.routeBody] at hc
    split at hc
    · exact absurd hc (by simp)
    · split at hc
      · exact absurd hc (by simp)
      · simp only [Except.ok.injEq, RouteModel.dynamicR.injEq] at hc
        obtain ⟨h1, -⟩ := hc
        subst h1
        rfl

/-- C8 amended: for every pattern string that compiles without error
and every path it successfully matches, `Pattern` introspection after
the match (before the parameters are released) returns the normalized
registration string `"/" + TrimLeft(pattern, "/")` — which is the
original string exactly when the original already begins with a
single leading slash.  Dynamic routes (any pool state satisfying the
pool invariant) and static routes are both covered. -/
theorem c8_amended :
    (∀ (path : List Char) (hrep : HandlerRep) (rt : DynRoute) (n : Nat)
      (s : PoolState) (r : Req) (s' : PoolState) (r' : Req),
      route path hrep = .ok (.dynamicR rt n) →
      poolInv rt.pattern s →
      dynMatch rt s r = some (true, s', r') →
      patternIntro s' r' = normalize path) ∧
    (∀ (path : List Char) (hrep : HandlerRep) (st : StaticRoute) (r : Req) (k : Nat),
      route path hrep = .ok (.staticR st) →
      (staticRouteMatch st r).1 = some k →
      staticPatternIntro (staticRouteMatch st r).2.1 (staticRouteMatch st r).2.2 =
        normalize path) := by
  constructor
  · intro path hrep rt n s r s' r' hc hinv hm
    obtain ⟨hb, -, hinv'⟩ := dynMatch_succ rt s r s' r' hinv hm
    have hpat := route_dynamicR_pattern path hrep rt n hc
    simp only [patternIntro, parameterized, hb]
    exact ((hinv' _).1).trans hpat
  · intro path hrep st r k hc hms
    obtain ⟨hp, hcar⟩ := route_staticR_shape path hrep st hc
    cases hcond : (st.p == r.path) with
    | false => simp [staticRouteMatch, hcond] at hms
    | true =>
      simp only [staticRouteMatch, hcond, if_true]
      simp only [staticPatternIntro, parameterized]
      simp [hcar]

/-- C8 amended witness: the dynamic part applied to the registration
string `x/:y` and the matched path `/x/5`, and the static part applied
to `/users/hello`. -/
theorem c8_amended_witness :
    patternIntro packXY.1 packXY.2 = normalize "x/:y".toList ∧
    staticPatternIntro
      (staticRouteMatch (mkStaticRoute "/users/hello".toList 3)
        ⟨.null, "/users/hello".toList⟩).2.1
      (staticRouteMatch (mkStaticRoute "/users/hello".toList 3)
        ⟨.null, "/users/hello".toList⟩).2.2 = normalize "/users/hello".toList :=
  ⟨c8_amended.1 "x/:y".toList (.handlerFunc 0) rtXY 1 poolXY
      ⟨.stream 7, "/x/5".toList⟩ packXY.1 packXY.2 rfl (poolInv_init _) rfl,
    c8_amended.2 "/users/hello".toList (.handlerFunc 3)
      (mkStaticRoute "/users/hello".toList 3) ⟨.null, "/users/hello".toList⟩ 3 rfl rfl⟩

/-! ## C7: spec-side description of invalid patterns -/

/-- The pattern's segments as the spec describes them: the normalized
path, trimmed of outer slashes, split on `/`. -/
def specSegments (path : List Char) : List (List Char) :=
  splitSlash (trimSlashes (normalize path))

/-- A parameter marker occurs at position `i` of a segment. -/
abbrev markerAt (seg : List Char) (i : Nat) : Prop :=
  ∃ c, seg[i]? = some c ∧ isMarker c = true

/-- The spec's enumeration of invalid patterns: a marker not
immediately after a separator (i.e. at a positive position inside a
segment), a marker with an empty name (a marker that is a segment's
last character), a catch-all segment (one beginning with `*`) that is
not the final segment, or more than one marker in a single segment. -/
def specInvalid (path : List Char) : Prop :=
  (∃ seg ∈ specSegments path, ∃ i, 0 < i ∧ markerAt seg i) ∨
  (∃ seg ∈ specSegments path, seg ≠ [] ∧ markerAt seg (seg.length - 1)) ∨
  (∃ seg ∈ (specSegments path).dropLast, seg[0]? = some '*') ∨
  (∃ seg ∈ specSegments path, 2 ≤ seg.countP isMarker)

/-- `indexAny` finds nothing exactly when no character is a marker. -/
theorem indexAny_eq_none_iff (s : List Char) :
    indexAny s = none ↔ ∀ c ∈ s, isMarker c = false := by
  induction s with
  | nil => simp [indexAny]
  | cons c rest ih =>
    simp only [indexAny]
    split
    · rename_i h
      simp [h]
    · rename_i h
      simp only [Option.map_eq_none', ih, List.forall_mem_cons,
        Bool.not_eq_true] at *
      simp [h]

/-- `indexAny` returns the position of a marker. -/
theorem indexAny_some_markerAt (s : List Char) (i : Nat)
    (h : indexAny s = some i) : markerAt s i := by
  induction s generalizing i with
  | nil => exact absurd h (by simp [indexAny])
  | cons c rest ih =>
    simp only [indexAny] at h
    split at h
    · rename_i hm
      simp only [Option.some.injEq] at h
      subst h
      exact ⟨c, by simp, hm⟩
    · simp only [Option.map_eq_some'] at h
      obtain ⟨j, hj, hji⟩ := h
      subst hji
      obtain ⟨d, hd, hdm⟩ := ih j hj
      exact ⟨d, by simpa using hd, hdm⟩

/-- One segment's validation fails exactly when the spec's conditions
hold of that segment (with the catch-all condition relativized to
whether the segment is the last one). -/
theorem validateSeg_isSome_iff (seg : List Char) (isLast : Bool) :
    (validateSeg seg isLast).isSome = true ↔
      ((∃ i, 0 < i ∧ markerAt seg i) ∨
       (seg ≠ [] ∧ markerAt seg (seg.length - 1)) ∨
       (seg[0]? = some '*' ∧ isLast = false) ∨
       2 ≤ seg.countP isMarker) := by
  rcases h : indexAny seg with _ | pos
  · have hnone := (indexAny_eq_none_iff seg).mp h
    simp only [validateSeg, h]
    constructor
    · intro hf
      exact absurd hf (by simp)
    · rintro (⟨i, hi, c, hc, hm⟩ | ⟨hne, c, hc, hm⟩ | ⟨hc, -⟩ | hcount)
      · simp [hnone c (List.getElem?_mem hc)] at hm
      · simp [hnone c (List.getElem?_mem hc)] at hm
      · exact absurd (hnone '*' (List.getElem?_mem hc)) (by decide)
      · have h0 : seg.countP isMarker = 0 :=
          List.countP_eq_zero.mpr (by intro a ha; simp [hnone a ha])
        omega
  · obtain ⟨cm, hcm, hcmm⟩ := indexAny_some_markerAt seg pos h
    have hposlen : pos < seg.length := (List.getElem?_eq_some.mp hcm).1
    simp only [validateSeg, h]
    split_ifs with h1 h2 h3 h4
    · exact iff_of_true (by simp)
        (Or.inl ⟨pos, Nat.pos_of_ne_zero h1, cm, hcm, hcmm⟩)
    · refine iff_of_true (by simp) (Or.inr (Or.inl ⟨?_, cm, ?_, hcmm⟩))
      · intro hnil
        rw [hnil] at hposlen
        exact absurd hposlen (by simp)
      · rw [h2]
        exact hcm
    · simp only [Bool.and_eq_true, decide_eq_true_eq, Bool.not_eq_true'] at h3
      exact iff_of_true (by simp) (Or.inr (Or.inr (Or.inl h3)))
    · obtain ⟨j, hj⟩ := Option.ne_none_iff_exists'.mp h4
      obtain ⟨d, hd, hdm⟩ := indexAny_some_markerAt _ j hj
      have hpos0 : pos = 0 := not_not.mp h1
      subst hpos0
      rcases seg with - | ⟨c0, rest0⟩
      · exact absurd hcm (by simp)
      · have hc0 : c0 = cm := by simpa using hcm
        subst hc0
        have hdrop : (c0 :: rest0).drop 1 = rest0 := rfl
        rw [hdrop] at hd
        have hrest : 0 < rest0.countP isMarker :=
          List.countP_pos_iff.mpr ⟨d, List.getElem?_mem hd, hdm⟩
        have hcnt : (c0 :: rest0).countP isMarker =
            rest0.countP isMarker + 1 := by
          rw [List.countP_cons, hcmm]
          simp
        refine iff_of_true (by simp) (Or.inr (Or.inr (Or.inr ?_)))
        omega
    · have hpos0 : pos = 0 := not_not.mp h1
      subst hpos0
      have hrestnone : ∀ c ∈ seg.drop 1, isMarker c = false :=
        (indexAny_eq_none_iff _).mp (not_not.mp h4)
      have hlen2 : 2 ≤ seg.length := by omega
      refine iff_of_false (by simp) ?_
      rintro (⟨i, hi, c, hc, hm⟩ | ⟨hne, c, hc, hm⟩ | ⟨hstar, hl⟩ | hcount)
      · have hdi : (seg.drop 1)[i - 1]? = some c := by
          rw [List.getElem?_drop]
          have : 1 + (i - 1) = i := by omega
          rw [this]
          exact hc
        simp [hrestnone c (List.getElem?_mem hdi)] at hm
      · have hi : 0 < seg.length - 1 := by omega
        have hdi : (seg.drop 1)[seg.length - 1 - 1]? = some c := by
          rw [List.getElem?_drop]
          have : 1 + (seg.length - 1 - 1) = seg.length - 1 := by omega
          rw [this]
          exact hc
        simp [hrestnone c (List.getElem?_mem hdi)] at hm
      · rw [hcm] at hstar
        have hcmstar : cm = '*' := by simpa using hstar
        apply h3
        simp [hcm, hcmstar, hl]
      · rcases seg with - | ⟨c0, rest0⟩
        · exact absurd hcm (by simp)
        · have hr0 : rest0.countP isMarker = 0 :=
            List.countP_eq_zero.mpr (by
              intro a ha
              simp [hrestnone a (by simpa using ha)])
          have hcnt : (c0 :: rest0).countP isMarker ≤ 1 := by
            rw [List.countP_cons, hr0]
            split <;> simp
          omega

/-- The whole validation loop fails exactly when some segment
violates a spec condition (the catch-all condition on a non-final
segment). -/
theorem validateSegs_isSome_iff (pieces : List (List Char)) :
    (validateSegs pieces).isSome = true ↔
      ((∃ seg ∈ pieces, ∃ i, 0 < i ∧ markerAt seg i) ∨
       (∃ seg ∈ pieces, seg ≠ [] ∧ markerAt seg (seg.length - 1)) ∨
       (∃ seg ∈ pieces.dropLast, seg[0]? = some '*') ∨
       (∃ seg ∈ pieces, 2 ≤ seg.countP isMarker)) := by
  induction pieces with
  | nil => simp [validateSegs]
  | cons seg rest ih =>
    cases rest with
    | nil =>
      rw [show validateSegs [seg] = validateSeg seg true from rfl,
        validateSeg_isSome_iff]
      simp
    | cons seg2 rest2 =>
      rw [show validateSegs (seg :: seg2 :: rest2) =
        (validateSeg seg false).orElse (fun _ => validateSegs (seg2 :: rest2)) from rfl]
      have hor : ((validateSeg seg false).orElse
          (fun _ => validateSegs (seg2 :: rest2))).isSome = true ↔
          ((validateSeg seg false).isSome = true ∨
            (validateSegs (seg2 :: rest2)).isSome = true) := by
        cases hv : validateSeg seg false <;> simp [Option.orElse, hv]
      rw [hor, validateSeg_isSome_iff, ih,
        show (seg :: seg2 :: rest2).dropLast = seg :: (seg2 :: rest2).dropLast from rfl]
      simp only [List.mem_cons]
      constructor
      · rintro ((h | h | h | h) | h)
        · exact Or.inl ⟨seg, Or.inl rfl, h⟩
        · exact Or.inr (Or.inl ⟨seg, Or.inl rfl, h⟩)
        · exact Or.inr (Or.inr (Or.inl ⟨seg, Or.inl rfl, h.1⟩))
        · exact Or.inr (Or.inr (Or.inr ⟨seg, Or.inl rfl, h⟩))
        · rcases h with (⟨x, hx, h⟩ | ⟨x, hx, h⟩ | ⟨x, hx, h⟩ | ⟨x, hx, h⟩)
          · exact Or.inl ⟨x, Or.inr hx, h⟩
          · exact Or.inr (Or.inl ⟨x, Or.inr hx, h⟩)
          · exact Or.inr (Or.inr (Or.inl ⟨x, Or.inr hx, h⟩))
          · exact Or.inr (Or.inr (Or.inr ⟨x, Or.inr hx, h⟩))
      · rintro (⟨x, hx | hx, h⟩ | ⟨x, hx | hx, h⟩ | ⟨x, hx | hx, h⟩ | ⟨x, hx | hx, h⟩)
        · subst hx; exact Or.inl (Or.inl h)
        · exact Or.inr (Or.inl ⟨x, hx, h⟩)
        · subst hx; exact Or.inl (Or.inr (Or.inl h))
        · exact Or.inr (Or.inr (Or.inl ⟨x, hx, h⟩))
        · subst hx; exact Or.inl (Or.inr (Or.inr (Or.inl ⟨h, by simp⟩)))
        · exact Or.inr (Or.inr (Or.inr (Or.inl ⟨x, hx, h⟩)))
        · subst hx; exact Or.inl (Or.inr (Or.inr (Or.inr h)))
        · exact Or.inr (Or.inr (Or.inr (Or.inr ⟨x, hx, h⟩)))

/-- Characters of a piece of `splitSlash` come from the split string. -/
theorem mem_of_mem_splitSlash (l : List Char) (seg : List Char) (c : Char)
    (hseg : seg ∈ splitSlash l) (hc : c ∈ seg) : c ∈ l := by
  induction l generalizing seg with
  | nil =>
    simp only [splitSlash, List.mem_singleton] at hseg
    subst hseg
    simp at hc
  | cons a rest ih =>
    simp only [splitSlash] at hseg
    split at hseg
    · rcases List.mem_cons.mp hseg with h | h
      · subst h; simp at hc
      · exact List.mem_cons_of_mem a (ih _ h hc)
    · rcases hsp : splitSlash rest with - | ⟨p, ps⟩
      · rw [hsp] at hseg
        simp only [List.mem_singleton] at hseg
        subst hseg
        simp only [List.mem_singleton] at hc
        subst hc
        exact List.mem_cons_self _ _
      · rw [hsp] at hseg
        rcases List.mem_cons.mp hseg with h | h
        · subst h
          rcases List.mem_cons.mp hc with h2 | h2
          · subst h2; exact List.mem_cons_self _ _
          · have hp : p ∈ splitSlash rest := by rw [hsp]; exact List.mem_cons_self _ _
            exact List.mem_cons_of_mem a (ih p hp h2)
        · have hmem : seg ∈ splitSlash rest := by
            rw [hsp]; exact List.mem_cons_of_mem _ h
          exact List.mem_cons_of_mem a (ih seg hmem hc)

/-- Characters survive the outer-slash trim. -/
theorem mem_of_mem_trimSlashes (l : List Char) (c : Char)
    (h : c ∈ trimSlashes l) : c ∈ l := by
  simp only [trimSlashes, List.mem_reverse] at h
  have h1 := (List.dropWhile_sublist _).subset h
  rw [List.mem_reverse] at h1
  exact (List.dropWhile_sublist _).subset h1

/-- A spec-invalid pattern has a marker character somewhere in the
normalized pattern string. -/
theorem specInvalid_marker_exists (path : List Char) (h : specInvalid path) :
    ∃ c ∈ normalize path, isMarker c = true := by
  have step : ∀ seg ∈ specSegments path, ∀ c ∈ seg, c ∈ normalize path := by
    intro seg hseg c hc
    exact mem_of_mem_trimSlashes _ c (mem_of_mem_splitSlash _ seg c hseg hc)
  rcases h with (⟨seg, hseg, i, -, c, hc, hm⟩ | ⟨seg, hseg, -, c, hc, hm⟩ |
    ⟨seg, hseg, hc⟩ | ⟨seg, hseg, hcnt⟩)
  · exact ⟨c, step seg hseg c (List.getElem?_mem hc), hm⟩
  · exact ⟨c, step seg hseg c (List.getElem?_mem hc), hm⟩
  · have hsegmem : seg ∈ specSegments path :=
      (List.dropLast_sublist _).subset hseg
    exact ⟨'*', step seg hsegmem '*' (List.getElem?_mem hc), by decide⟩
  · obtain ⟨c, hcmem, hm⟩ := List.countP_pos_iff.mp (Nat.lt_of_lt_of_le Nat.zero_lt_two hcnt)
    exact ⟨c, step seg hseg c hcmem, hm⟩

/-- A pattern with no marker satisfies no spec-invalidity condition. -/
theorem not_specInvalid_of_no_marker (path : List Char)
    (h : indexAny (normalize path) = none) : ¬ specInvalid path := by
  intro hinv
  obtain ⟨c, hc, hm⟩ := specInvalid_marker_exists path hinv
  simp [(indexAny_eq_none_iff _).mp h c hc] at hm

/-- `Route`'s pattern handling fails exactly on spec-invalid patterns
(for an accepted handler representation). -/
theorem routeBody_error_iff (p0 : List Char) (k : Nat) :
    (∃ e, route.routeBody (normalize p0) p0 k = Except.error e) ↔ specInvalid p0 := by
  by_cases hstat : indexAny (normalize p0) = none
  · simp only [route.routeBody, if_pos hstat]
    constructor
    · rintro ⟨e, he⟩
      exact absurd he (by simp)
    · intro h
      exact absurd h (not_specInvalid_of_no_marker p0 hstat)
  · simp only [route.routeBody, if_neg hstat]
    rcases hv : validateSegs (splitSlash (trimSlashes (normalize p0))) with - | e
    · have hno : ¬ specInvalid p0 := by
        intro hinv
        have h2 : (validateSegs (specSegments p0)).isSome = true :=
          (validateSegs_isSome_iff _).mpr hinv
        rw [show specSegments p0 = splitSlash (trimSlashes (normalize p0)) from rfl,
          hv] at h2
        exact absurd h2 (by simp)
      simp only [hv]
      constructor
      · rintro ⟨e, he⟩
        exact absurd he (by simp)
      · intro h
        exact absurd h hno
    · simp only [hv]
      constructor
      · intro _
        have h2 : (validateSegs (splitSlash (trimSlashes (normalize p0)))).isSome = true := by
          rw [hv]; rfl
        exact (validateSegs_isSome_iff _).mp h2
      · intro _
        exact ⟨e, rfl⟩

/-- C7: `Route` accepts a handler in either recognized representation
(the host's handler-function type or a plain handler function) and
fails at registration time exactly when the handler is of an
unrecognized representation or the pattern has a marker not
immediately after a separator, a marker with an empty name, a
catch-all segment that is not the final segment, or more than one
marker in a single segment.  Request-time matching plays no part:
`route` itself returns the error. -/
theorem c7_registration_failures (path : List Char) (hrep : HandlerRep) :
    (∃ e, route path hrep = Except.error e) ↔
      hrep = HandlerRep.other ∨ specInvalid path := by
  cases hrep with
  | other => simp [route]
  | handlerFunc k =>
    constructor
    · intro h
      exact Or.inr ((routeBody_error_iff path k).mp (by simpa [route] using h))
    · rintro (habs | h)
      · exact absurd habs (by simp)
      · obtain ⟨e, he⟩ := (routeBody_error_iff path k).mpr h
        exact ⟨e, by simpa [route] using he⟩
  | plainFunc k =>
    constructor
    · intro h
      exact Or.inr ((routeBody_error_iff path k).mp (by simpa [route] using h))
    · rintro (habs | h)
      · exact absurd habs (by simp)
      · obtain ⟨e, he⟩ := (routeBody_error_iff path k).mpr h
        exact ⟨e, by simpa [route] using he⟩

end Fastroute

